import Mathlib

/-!
Verification of the newspop multi-source news pipeline.

This file shallowly embeds the data model and operations of the three
Python modules (gdelt_pipeline.py, newsdata_pipeline.py,
generate_digest.py) as executable Lean definitions, and proves or
refutes the frozen specification claims about them.

Python strings are modelled as Lean String; Python None / missing-dict
values as Option; pandas DataFrames either as lists of rows (for row
operations such as dedup, cap, enrichment) or as ordered lists of
(column name, column values) pairs (for column-level operations such as
rename and placeholder insertion); network effects as explicit
function-shaped environments supplied to the embedded code.
-/

/-! ### Python string primitives -/

/-- Python truthiness-based or-chain on optional strings:
None and the empty string are falsy, so a.get(k) or d keeps a non-empty
string and otherwise falls through to the default. -/
def pyOr : Option String → String → String
  | some s, d => if s = "" then d else s
  | none, d => d

/-- Python s[:n] — keep the first n characters. -/
def takeChars (n : Nat) (s : String) : String :=
  (s.toList.take n).asString

/-- Python s.strip() — drop leading and trailing whitespace. -/
def pyStrip (s : String) : String :=
  (((s.toList.dropWhile Char.isWhitespace).reverse.dropWhile
    Char.isWhitespace).reverse).asString

/-- Python s.replace(c, "") for a single-character pattern c. -/
def stripChar (c : Char) (s : String) : String :=
  (s.toList.filter (fun d => d ≠ c)).asString

/-- Python s.replace("\n", " ") — character-for-character substitution. -/
def replaceNlSpace (s : String) : String :=
  (s.toList.map (fun c => if c = '\n' then ' ' else c)).asString

/-- Does the first character list begin the second one? -/
def startsWithChars : List Char → List Char → Bool
  | [], _ => true
  | _ :: _, [] => false
  | a :: as, b :: bs => a == b && startsWithChars as bs

/-- Does the needle occur contiguously inside the haystack? -/
def hasSub (needle : List Char) : List Char → Bool
  | [] => startsWithChars needle []
  | c :: t => startsWithChars needle (c :: t) || hasSub needle t

/-- Python needle in hay for strings. -/
def strContains (hay needle : String) : Bool :=
  hasSub needle.toList hay.toList

/-- Python s.startswith(p). -/
def strStarts (p s : String) : Bool :=
  startsWithChars p.toList s.toList

/-- Python s.endswith(p). -/
def strEnds (p s : String) : Bool :=
  startsWithChars p.toList.reverse s.toList.reverse

/-! ### Merger / Deduplicator
(gdelt_pipeline.run_gdeltdoc lines 127-133; generate_digest.load_latest_parquet
line 143): pandas concat(ignore_index=True), drop_duplicates(subset="url")
which keeps the first occurrence, head(max_articles), reset_index(drop=True).
In the list-of-rows model reset_index is the identity. -/

/-- Worker for drop_duplicates(subset=key): walk the rows in order, keeping a
row only when its key has not been seen yet. -/
def dropDupGo {α : Type} (key : α → String) : List α → List String → List α
  | [], _ => []
  | x :: xs, seen =>
    if key x ∈ seen then dropDupGo key xs seen
    else x :: dropDupGo key xs (key x :: seen)

/-- pandas drop_duplicates(subset=key), default keep="first". -/
def dropDupKey {α : Type} (key : α → String) (l : List α) : List α :=
  dropDupGo key l []

/-- Concatenate the input tables in order and deduplicate on the key
(the merge used by load_latest_parquet, and by run_gdeltdoc before the cap). -/
def mergeDedup {α : Type} (key : α → String) (tables : List (List α)) : List α :=
  dropDupKey key tables.flatten

/-- The full merge step of run_gdeltdoc: concat, drop_duplicates on url,
head(cap), reset_index. -/
def mergeTables {α : Type} (key : α → String) (tables : List (List α))
    (cap : Nat) : List α :=
  (mergeDedup key tables).take cap

/-- A concrete article row for witnesses: a url plus a payload telling
distinct rows with the same url apart. -/
structure Row where
  url : String
  payload : Nat
deriving DecidableEq

/-! ### GDELT column normalisation
(gdelt_pipeline.run_gdeltdoc lines 135-147): rename seendate to date_str,
domain to source, language to language, sourcecountry to country; then add
the placeholder columns themes, locations, persons, organizations, tone
with value None when absent. -/

/-- One pandas DataFrame modelled column-wise: ordered (name, values) pairs. -/
abbrev GTable := List (String × List (Option String))

/-- Column names of a table. -/
def tableCols (t : GTable) : List String := t.map Prod.fst

/-- Number of rows of a table (all columns share one length). -/
def tableRowCount (t : GTable) : Nat :=
  match t with
  | [] => 0
  | c :: _ => c.2.length

/-- Values of a named column, if present. -/
def lookupCol (t : GTable) (c : String) : Option (List (Option String)) :=
  (t.find? (fun p => p.1 == c)).map Prod.snd

/-- The rename map of run_gdeltdoc line 136. -/
def renameCol (c : String) : String :=
  if c = "seendate" then "date_str"
  else if c = "domain" then "source"
  else if c = "language" then "language"
  else if c = "sourcecountry" then "country"
  else c

/-- The placeholder columns of run_gdeltdoc line 144. -/
def gdeltPlaceholders : List String :=
  ["themes", "locations", "persons", "organizations", "tone"]

/-- The tail of run_gdeltdoc (lines 135-147): rename the columns, then for
each placeholder column not yet present append it filled with None. -/
def gdeltRenamePlaceholders (t : GTable) : GTable :=
  let renamed : GTable := t.map (fun c => (renameCol c.1, c.2))
  gdeltPlaceholders.foldl
    (fun acc col =>
      if (tableCols acc).contains col then acc
      else acc ++ [(col, List.replicate (tableRowCount acc) (none : Option String))])
    renamed

/-- Columns of the raw article table the gdeltdoc collaborator returns from
article_search. -/
def gdeltRawCols : List String :=
  ["url", "url_mobile", "title", "seendate", "socialimage", "domain",
   "language", "sourcecountry"]

/-- A one-row raw GDELT article table with the collaborator's columns. -/
def gdeltRawEx : GTable :=
  [("url", [some "http://example.com/a"]),
   ("url_mobile", [some ""]),
   ("title", [some "Denatalita"]),
   ("seendate", [some "20260101T000000Z"]),
   ("socialimage", [some ""]),
   ("domain", [some "ansa.it"]),
   ("language", [some "Italian"]),
   ("sourcecountry", [some "Italy"])]

/-- Modelled from the spec (section 3): the canonical Article Row columns
named by the claim. -/
def specCanonicalCols : List String :=
  ["date_str", "source", "url", "themes", "locations", "persons",
   "organizations", "tone", "translation_info", "full_text"]

/-- The literal key list of the row dict built by newsdata_pipeline.normalize
(lines 118-129). -/
def ndCols : List String :=
  ["date_str", "source", "url", "themes", "locations", "persons",
   "organizations", "tone", "translation_info", "full_text"]

/-! ### Full-Text Enricher
(gdelt_pipeline.fetch_full_text lines 156-170, add_full_text lines 173-189). -/

/-- Outcome of trafilatura.fetch_url for one url: an exception, a None
download, or a downloaded document. -/
inductive FetchOutcome where
  | exn : FetchOutcome
  | nothing : FetchOutcome
  | html : String → FetchOutcome
deriving DecidableEq

/-- fetch_full_text: download the url; on exception or empty download
return None, otherwise extract (which may itself return None). -/
def fetch_full_text (world : String → FetchOutcome)
    (extract : String → Option String) (url : String) : Option String :=
  match world url with
  | FetchOutcome.exn => none
  | FetchOutcome.nothing => none
  | FetchOutcome.html doc => extract doc

/-- The indices submitted to the pool by add_full_text line 180: one task
per row, in row order. -/
def futureSubmissions (urls : List String) : List Nat :=
  List.range urls.length

/-- The value task i computes: fetch of urls[i]. -/
def fetchAt (fetch : String → Option String) (urls : List String)
    (i : Nat) : Option String :=
  match urls.get? i with
  | some u => fetch u
  | none => none

/-- The as_completed loop of add_full_text lines 182-184: for each finished
task, in completion order, write its result into its own slot. -/
def runCompletions (fetchAt' : Nat → Option String) (order : List Nat)
    (texts : List (Option String)) : List (Option String) :=
  order.foldl (fun ts idx => ts.set idx (fetchAt' idx)) texts

/-- add_full_text: preallocate texts = [None] * len(urls), run the pool,
collect positionally; order is the completion order of the tasks. -/
def add_full_text (fetch : String → Option String) (urls : List String)
    (order : List Nat) : List (Option String) :=
  runCompletions (fetchAt fetch urls) order
    (List.replicate urls.length (none : Option String))

/-! ### NewsData REST adapter
(newsdata_pipeline.fetch_articles lines 52-101). -/

/-- Server response to one page request: a transport failure
(requests.RequestException), HTTP 429, another non-ok HTTP status, an
application-level non-success status, or a success page with results and
an optional continuation token. -/
inductive NDResp where
  | transportErr : NDResp
  | rateLimited : NDResp
  | httpErr : NDResp
  | appErr : NDResp
  | page : List String → Option String → NDResp
deriving DecidableEq

/-- The pagination loop of fetch_articles (for i in range(max_pages)):
fuel counts the remaining loop iterations, k numbers the HTTP request the
server answers, tok is the page token currently stored in params, acc the
accumulated articles. A 429 sleeps and continues the for-loop; transport,
HTTP and application errors break; a success page extends the accumulator,
breaks when no nextPage token arrives, and otherwise loops with the new
token. -/
def fetchGo (server : Nat → NDResp) :
    Nat → Nat → Option String → List String → List String
  | 0, _, _, acc => acc
  | fuel + 1, k, tok, acc =>
    match server k with
    | NDResp.transportErr => acc
    | NDResp.rateLimited => fetchGo server fuel (k + 1) tok acc
    | NDResp.httpErr => acc
    | NDResp.appErr => acc
    | NDResp.page results next =>
      match next with
      | none => acc ++ results
      | some t => fetchGo server fuel (k + 1) (some t) (acc ++ results)

/-- fetch_articles: run the loop from request 0 with no page token. -/
def fetch_articles (server : Nat → NDResp) (maxPages : Nat) : List String :=
  fetchGo server maxPages 0 none []

/-- A server script that answers 429 to the first request and then serves
one final page. -/
def server429 : Nat → NDResp
  | 0 => NDResp.rateLimited
  | 1 => NDResp.page ["a1"] (some "tok2")
  | _ => NDResp.page ["a2"] none

/-- The same script without the 429: the pages are served immediately. -/
def serverOk : Nat → NDResp
  | 0 => NDResp.page ["a1"] (some "tok2")
  | _ => NDResp.page ["a2"] none

/-! ### NewsData normalizer
(newsdata_pipeline.normalize lines 108-133). -/

/-- One raw NewsData.io article: the dict fields normalize reads. -/
structure NDRaw where
  content : Option String
  description : Option String
  pubDate : Option String
  source_name : Option String
  source_id : Option String
  link : Option String
deriving DecidableEq

/-- One row of the shared canonical schema as normalize builds it. -/
structure CanonRow where
  date_str : String
  source : String
  url : String
  themes : String
  locations : String
  persons : String
  organizations : String
  tone : String
  translation_info : String
  full_text : Option String
deriving DecidableEq

/-- The per-article body of normalize lines 111-129. -/
def normalizeRow (a : NDRaw) : CanonRow :=
  let text := pyStrip (pyOr a.content (pyOr a.description ""))
  let pub := stripChar ':' (stripChar ' ' (stripChar '-' (pyOr a.pubDate "")))
  { date_str := takeChars 14 pub
  , source := pyStrip (pyOr a.source_name (pyOr a.source_id ""))
  , url := pyOr a.link ""
  , themes := ""
  , locations := ""
  , persons := ""
  , organizations := ""
  , tone := ""
  , translation_info := "srclc:ita"
  , full_text := if text = "" then none else some text }

namespace ND

/-- normalize: map the rows, drop empty urls, deduplicate on url keeping
the first occurrence, reset the index. -/
def normalize (raw : List NDRaw) : List CanonRow :=
  dropDupKey CanonRow.url
    ((raw.map normalizeRow).filter (fun r => !(r.url == "")))

end ND

/-- Modelled from the spec claim wording for C9: full_text is the stripped
content field if non-empty, otherwise the stripped description field if
non-empty, otherwise null. -/
def specFullTextC9 (a : NDRaw) : Option String :=
  let c := pyStrip (a.content.getD "")
  if c ≠ "" then some c
  else
    let d := pyStrip (a.description.getD "")
    if d ≠ "" then some d else none

/-- A raw NewsData article whose content is whitespace-only while the
description is non-empty (fields: content, description, pubDate,
source_name, source_id, link). -/
def ndRawWsContent : NDRaw :=
  ⟨some " ", some "abc", none, some "x", none, some "http://u"⟩

/-- A raw NewsData article whose content carries surrounding whitespace. -/
def ndRawPadded : NDRaw :=
  ⟨some " abc ", none, none, none, none, some "http://u"⟩

/-! ### Email summary
(gdelt_pipeline.build_email_summary lines 213-245). -/

/-- The row fields build_email_summary reads. -/
structure EmailRow where
  full_text : Option String
  title : Option String
  source : String
  url : String
deriving DecidableEq

/-- build_email_summary: returns (subject, plain body, html body). -/
def build_email_summary (df : List EmailRow) (date_from date_to : String) :
    String × String × String :=
  let df_ok := df.filter (fun r => r.full_text.isSome)
  let total := df.length
  let with_text := df_ok.length
  let header_plain : List String :=
    ["GDELT Daily Digest — " ++ date_from ++ " → " ++ date_to,
     "Articoli trovati: " ++ toString total ++ "  |  Con full text: " ++
       toString with_text,
     (List.replicate 60 '=').asString]
  let header_html : List String :=
    ["<h2>GDELT Daily Digest — " ++ date_from ++ " → " ++ date_to ++ "</h2>",
     "<p><b>Articoli trovati:</b> " ++ toString total ++
       " &nbsp;|&nbsp; <b>Con full text:</b> " ++ toString with_text ++ "</p>",
     "<hr>"]
  let entry_plain := fun (r : EmailRow) =>
    let text := pyOr r.full_text (pyOr r.title "")
    let snippet := pyStrip (replaceNlSpace (takeChars 300 text))
    "\n[" ++ r.source ++ "]\n" ++ r.url ++ "\n" ++ snippet ++ "...\n"
  let entry_html := fun (r : EmailRow) =>
    let text := pyOr r.full_text (pyOr r.title "")
    let snippet := pyStrip (replaceNlSpace (takeChars 300 text))
    "<p><b>[" ++ r.source ++ "]</b><br>" ++
      "<a href=\x27" ++ r.url ++ "\x27>" ++ takeChars 80 r.url ++ "</a><br>" ++
      snippet ++ "...</p><hr>"
  let subject := "[newspop] " ++ toString total ++
    " articoli su fertilità — " ++ date_from
  (subject,
   String.intercalate "\n" (header_plain ++ df_ok.map entry_plain),
   String.intercalate "\n" (header_html ++ df_ok.map entry_html))

/-- One enriched article row (fields: full_text, title, source, url). -/
def emailRowsEx : List EmailRow :=
  [⟨some "testo", some "Titolo", "ansa.it", "http://a"⟩]

/-! ### Digest loader
(generate_digest.load_latest_parquet lines 124-145). -/

/-- Does a filename match the glob gdelt_*.parquet? -/
def matchesGdelt (name : String) : Bool :=
  strStarts "gdelt_" name && strEnds ".parquet" name

/-- Does a filename match the glob newsdata_TODAY*.parquet? -/
def matchesNewsdataToday (today name : String) : Bool :=
  strStarts ("newsdata_" ++ today) name && strEnds ".parquet" name

/-- Insert a (name, table) pair into a name-descending list, keeping later
elements after earlier equal names (stable descending sort step). -/
def insertByNameDesc {α : Type} (x : String × α) :
    List (String × α) → List (String × α)
  | [] => [x]
  | y :: ys => if y.1 < x.1 then x :: y :: ys else y :: insertByNameDesc x ys

/-- Python sorted(files, reverse=True) on the filename. -/
def sortByNameDesc {α : Type} : List (String × α) → List (String × α)
  | [] => []
  | x :: xs => insertByNameDesc x (sortByNameDesc xs)

/-- load_latest_parquet over a modelled directory listing (filename paired
with the parquet contents): pick the lexicographically latest gdelt file or
raise FileNotFoundError, append all of today's newsdata files, concatenate
and deduplicate on url. -/
def load_latest_parquet {α : Type} (key : α → String) (today dataDir : String)
    (files : List (String × List α)) : Except String (List α × String) :=
  match sortByNameDesc (files.filter (fun f => matchesGdelt f.1)) with
  | [] => Except.error ("No gdelt parquet files found in " ++ dataDir)
  | g :: _ =>
    let nds := sortByNameDesc
      (files.filter (fun f => matchesNewsdataToday today f.1))
    let dfs := g.2 :: nds.map Prod.snd
    Except.ok (mergeDedup key dfs, g.1)

/-- A data directory holding only a NewsData parquet from today. -/
def digestFilesEx : List (String × List Row) :=
  [("newsdata_20261012_120000.parquet", [⟨"http://n", 0⟩])]

/-! ## Theorems -/

/-! ### Deduplication lemmas (claims C3, C5, C6) -/

theorem dropDupGo_filter_eq {α : Type} (key : α → String) (u : String)
    (l : List α) : ∀ seen : List String,
    (dropDupGo key l seen).filter (fun r => key r == u) =
      if u ∈ seen then [] else (l.find? (fun r => key r == u)).toList := by
  induction l with
  | nil =>
    intro seen
    simp [dropDupGo]
  | cons x xs ih =>
    intro seen
    by_cases hx : key x ∈ seen
    · rw [show dropDupGo key (x :: xs) seen = dropDupGo key xs seen from by
        simp [dropDupGo, hx], ih seen]
      by_cases hu : u ∈ seen
      · simp [hu]
      · have hxu : key x ≠ u := fun h => hu (h ▸ hx)
        rw [if_neg hu, if_neg hu, List.find?_cons_of_neg _ (by simp [hxu])]
    · rw [show dropDupGo key (x :: xs) seen =
          x :: dropDupGo key xs (key x :: seen) from by simp [dropDupGo, hx]]
      by_cases hk : key x = u
      · have hu : u ∉ seen := hk ▸ hx
        rw [List.filter_cons_of_pos (by simp [hk]), ih (key x :: seen),
          if_pos (by simp [hk] : u ∈ key x :: seen), if_neg hu,
          List.find?_cons_of_pos _ (by simp [hk])]
        rfl
      · rw [List.filter_cons_of_neg (by simp [hk]), ih (key x :: seen)]
        by_cases hu : u ∈ seen
        · rw [if_pos (List.mem_cons_of_mem _ hu), if_pos hu]
        · rw [if_neg (by simp [List.mem_cons, hu, Ne.symm hk] : u ∉ key x :: seen),
            if_neg hu, List.find?_cons_of_neg _ (by simp [hk])]

theorem mem_dropDupGo_not_seen {α : Type} (key : α → String) (l : List α) :
    ∀ (seen : List String) (r : α), r ∈ dropDupGo key l seen → key r ∉ seen := by
  induction l with
  | nil =>
    intro seen r hr
    simp [dropDupGo] at hr
  | cons x xs ih =>
    intro seen r hr
    by_cases hx : key x ∈ seen
    · rw [show dropDupGo key (x :: xs) seen = dropDupGo key xs seen from by
        simp [dropDupGo, hx]] at hr
      exact ih seen r hr
    · rw [show dropDupGo key (x :: xs) seen =
          x :: dropDupGo key xs (key x :: seen) from by simp [dropDupGo, hx]] at hr
      rcases List.mem_cons.mp hr with h | h
      · rw [h]; exact hx
      · intro hmem
        exact ih (key x :: seen) r h (List.mem_cons_of_mem _ hmem)

theorem pairwise_dropDupGo {α : Type} (key : α → String) (l : List α) :
    ∀ seen, (dropDupGo key l seen).Pairwise (fun a b => key a ≠ key b) := by
  induction l with
  | nil =>
    intro seen
    simp [dropDupGo]
  | cons x xs ih =>
    intro seen
    by_cases hx : key x ∈ seen
    · rw [show dropDupGo key (x :: xs) seen = dropDupGo key xs seen from by
        simp [dropDupGo, hx]]
      exact ih seen
    · rw [show dropDupGo key (x :: xs) seen =
          x :: dropDupGo key xs (key x :: seen) from by simp [dropDupGo, hx]]
      refine List.Pairwise.cons ?_ (ih (key x :: seen))
      intro b hb he
      exact mem_dropDupGo_not_seen key xs (key x :: seen) b hb
        (by rw [← he]; exact List.mem_cons_self _ _)

theorem dropDupGo_eq_self {α : Type} (key : α → String) (l : List α) :
    ∀ seen, (∀ r ∈ l, key r ∉ seen) →
      l.Pairwise (fun a b => key a ≠ key b) → dropDupGo key l seen = l := by
  induction l with
  | nil =>
    intro seen _ _
    simp [dropDupGo]
  | cons x xs ih =>
    intro seen hseen hpw
    have hx : key x ∉ seen := hseen x (List.mem_cons_self _ _)
    rw [show dropDupGo key (x :: xs) seen =
        x :: dropDupGo key xs (key x :: seen) from by simp [dropDupGo, hx]]
    congr 1
    refine ih (key x :: seen) ?_ (List.pairwise_cons.mp hpw).2
    intro r hr hmem
    rcases List.mem_cons.mp hmem with h | h
    · exact (List.pairwise_cons.mp hpw).1 r hr h.symm
    · exact hseen r (List.mem_cons_of_mem _ hr) h

/-- C3: merging any ordered list of input tables (concatenation followed by
drop_duplicates on url) keeps, for every url value, exactly the
first-occurring row of the concatenation, hence exactly one row per distinct
url present in the input. -/
theorem merge_dedup_first_wins {α : Type} (key : α → String)
    (tables : List (List α)) (u : String) :
    (mergeDedup key tables).filter (fun r => key r == u) =
      (tables.flatten.find? (fun r => key r == u)).toList ∧
    (u ∈ tables.flatten.map key →
      ((mergeDedup key tables).filter (fun r => key r == u)).length = 1) := by
  have h1 : (mergeDedup key tables).filter (fun r => key r == u) =
      (tables.flatten.find? (fun r => key r == u)).toList := by
    have h := dropDupGo_filter_eq key u tables.flatten []
    simpa [mergeDedup, dropDupKey] using h
  refine ⟨h1, fun hu => ?_⟩
  rcases List.mem_map.mp hu with ⟨r, hr, hkey⟩
  have hsome : (tables.flatten.find? (fun r => key r == u)).isSome := by
    rw [List.find?_isSome]
    exact ⟨r, hr, by simp [hkey]⟩
  obtain ⟨v, hv⟩ := Option.isSome_iff_exists.mp hsome
  rw [h1, hv]
  rfl

/-- C3 witness: two tables sharing url u1; the merge keeps exactly one u1
row. -/
theorem merge_dedup_first_wins_witness :
    ((mergeDedup Row.url [[⟨"u1", 1⟩, ⟨"u2", 2⟩], [⟨"u1", 3⟩]]).filter
      (fun r => Row.url r == "u1")).length = 1 :=
  (merge_dedup_first_wins Row.url [[⟨"u1", 1⟩, ⟨"u2", 2⟩], [⟨"u1", 3⟩]] "u1").2
    (by decide)

/-- C5: when the deduplicated merge result exceeds the configured cap, the
capped output has exactly cap rows and is a prefix of the pre-truncation
table in post-dedup order. -/
theorem merge_cap_bound {α : Type} (key : α → String) (tables : List (List α))
    (cap : Nat) (h : cap < (mergeDedup key tables).length) :
    (mergeTables key tables cap).length = cap ∧
    mergeTables key tables cap ++ (mergeDedup key tables).drop cap =
      mergeDedup key tables := by
  constructor
  · simp only [mergeTables, List.length_take]
    omega
  · simp [mergeTables, List.take_append_drop]

/-- C5 witness: three distinct urls capped at 2. -/
theorem merge_cap_bound_witness :
    (mergeTables Row.url [[⟨"a", 0⟩, ⟨"b", 1⟩, ⟨"c", 2⟩]] 2).length = 2 :=
  (merge_cap_bound Row.url [[⟨"a", 0⟩, ⟨"b", 1⟩, ⟨"c", 2⟩]] 2 (by decide)).1

/-- C6: the merge step is a pure function of its inputs (running it twice on
the same input gives the same output) and is idempotent: merging the merge
output alone reproduces it unchanged. -/
theorem merge_deterministic_idempotent {α : Type} (key : α → String)
    (tables : List (List α)) (cap : Nat) :
    mergeTables key tables cap = mergeTables key tables cap ∧
    mergeTables key [mergeTables key tables cap] cap =
      mergeTables key tables cap := by
  refine ⟨rfl, ?_⟩
  have hm : mergeTables key [mergeTables key tables cap] cap =
      (dropDupKey key (mergeTables key tables cap)).take cap := by
    simp [mergeTables, mergeDedup]
  have hpw : (mergeTables key tables cap).Pairwise
      (fun a b => key a ≠ key b) := by
    have := pairwise_dropDupGo key tables.flatten []
    exact List.Pairwise.sublist (List.take_sublist _ _) this
  have hdd : dropDupKey key (mergeTables key tables cap) =
      mergeTables key tables cap :=
    dropDupGo_eq_self key (mergeTables key tables cap) [] (by simp) hpw
  have hlen : (mergeTables key tables cap).length ≤ cap := by
    simp only [mergeTables, List.length_take]
    omega
  rw [hm, hdd, List.take_of_length_le hlen]

/-! ### Enricher lemmas (claims C4, C7) -/

theorem runCompletions_length (f : Nat → Option String) (order : List Nat) :
    ∀ texts, (runCompletions f order texts).length = texts.length := by
  induction order with
  | nil => intro texts; rfl
  | cons j rest ih =>
    intro texts
    show (runCompletions f rest (texts.set j (f j))).length = texts.length
    rw [ih, List.length_set]

theorem runCompletions_getElem?_not_mem (f : Nat → Option String)
    (order : List Nat) (i : Nat) (hi : i ∉ order) :
    ∀ texts, (runCompletions f order texts)[i]? = texts[i]? := by
  induction order with
  | nil => intro texts; rfl
  | cons j rest ih =>
    intro texts
    have hij : i ∉ rest := fun h => hi (List.mem_cons_of_mem _ h)
    have hji : j ≠ i := fun h => hi (h ▸ List.mem_cons_self _ _)
    show (runCompletions f rest (texts.set j (f j)))[i]? = texts[i]?
    rw [ih hij, List.getElem?_set_ne hji]

theorem runCompletions_getElem?_mem (f : Nat → Option String)
    (order : List Nat) (i : Nat) (hi : i ∈ order) :
    ∀ texts, i < texts.length →
      (runCompletions f order texts)[i]? = some (f i) := by
  induction order with
  | nil => exact absurd hi (List.not_mem_nil i)
  | cons j rest ih =>
    intro texts hlen
    show (runCompletions f rest (texts.set j (f j)))[i]? = some (f i)
    by_cases hmem : i ∈ rest
    · exact ih hmem _ (by rwa [List.length_set])
    · have hij : i = j := by
        rcases List.mem_cons.mp hi with h | h
        · exact h
        · exact absurd h hmem
      subst hij
      rw [runCompletions_getElem?_not_mem f rest i hmem,
        List.getElem?_set_self', List.getElem?_eq_getElem hlen]
      rfl

/-- C4: for every url list and every completion order of the worker-pool
tasks (any permutation of the row indices), add_full_text returns the
full_text column aligned index-for-index with the url list: slot i holds the
fetch result for urls[i]. -/
theorem add_full_text_positional (fetch : String → Option String)
    (urls : List String) (order : List Nat)
    (h : order.Perm (List.range urls.length)) :
    add_full_text fetch urls order = urls.map fetch := by
  apply List.ext_getElem?
  intro i
  by_cases hi : i < urls.length
  · have hmem : i ∈ order := h.mem_iff.mpr (List.mem_range.mpr hi)
    have hlen : i < (List.replicate urls.length (none : Option String)).length := by
      simpa using hi
    rw [show add_full_text fetch urls order =
        runCompletions (fetchAt fetch urls) order
          (List.replicate urls.length none) from rfl,
      runCompletions_getElem?_mem _ order i hmem _ hlen, List.getElem?_map,
      List.getElem?_eq_getElem hi]
    have hu : urls.get? i = some urls[i] := by
      simp [List.get?_eq_getElem?, List.getElem?_eq_getElem hi]
    simp only [fetchAt, hu]
    rfl
  · have h1 : (add_full_text fetch urls order)[i]? = none := by
      apply List.getElem?_eq_none
      rw [show add_full_text fetch urls order =
          runCompletions (fetchAt fetch urls) order
            (List.replicate urls.length none) from rfl,
        runCompletions_length]
      simpa using Nat.le_of_not_lt hi
    have h2 : (urls.map fetch)[i]? = none := by
      apply List.getElem?_eq_none
      simpa using Nat.le_of_not_lt hi
    rw [h1, h2]

/-- C4 witness: three urls completed in the order 2, 0, 1 still give the
positionally aligned column. -/
theorem add_full_text_positional_witness :
    add_full_text (fun u => if u = "a" then some "A" else none)
      ["a", "b", "c"] [2, 0, 1] = [some "A", none, none] :=
  (add_full_text_positional (fun u => if u = "a" then some "A" else none)
    ["a", "b", "c"] [2, 0, 1] (by decide)).trans (by decide)

/-- C7: the enricher submits exactly one task per row (each url is fetched
exactly once per run, no retry), and every per-row failure mode — fetch
exception, empty download, extraction failure — yields a null full_text for
that row without raising; the batch always completes with one slot per row
no matter how many urls fail. -/
theorem fetch_full_text_once_and_silent (world : String → FetchOutcome)
    (extract : String → Option String) (urls : List String) (i : Nat)
    (hi : i < urls.length) :
    (futureSubmissions urls).count i = 1 ∧
    (∀ url, world url = FetchOutcome.exn →
      fetch_full_text world extract url = none) ∧
    (∀ url, world url = FetchOutcome.nothing →
      fetch_full_text world extract url = none) ∧
    (∀ url doc, world url = FetchOutcome.html doc → extract doc = none →
      fetch_full_text world extract url = none) ∧
    (∀ order, (add_full_text (fetch_full_text world extract) urls order).length
      = urls.length) := by
  refine ⟨?_, ?_, ?_, ?_, ?_⟩
  · exact List.count_eq_one_of_mem (List.nodup_range _)
      (List.mem_range.mpr hi)
  · intro url h
    simp [fetch_full_text, h]
  · intro url h
    simp [fetch_full_text, h]
  · intro url doc h hext
    simp [fetch_full_text, h, hext]
  · intro order
    rw [show add_full_text (fetch_full_text world extract) urls order =
        runCompletions (fetchAt (fetch_full_text world extract) urls) order
          (List.replicate urls.length none) from rfl,
      runCompletions_length]
    simp

/-- C7 witness: a two-url batch in which the first fetch raises; submissions
count one task for row 0 and the failing row yields null. -/
theorem fetch_full_text_once_and_silent_witness :
    (futureSubmissions ["http://bad", "http://good"]).count 0 = 1 ∧
    fetch_full_text (fun _ => FetchOutcome.exn) (fun d => some d)
      "http://bad" = none :=
  ⟨(fetch_full_text_once_and_silent (fun _ => FetchOutcome.exn)
      (fun d => some d) ["http://bad", "http://good"] 0 (by decide)).1,
   (fetch_full_text_once_and_silent (fun _ => FetchOutcome.exn)
      (fun d => some d) ["http://bad", "http://good"] 0 (by decide)).2.1
     "http://bad" rfl⟩

/-! ### NewsData REST adapter: rate-limit behaviour (claim C1) -/

/-- C1 counterexample: with max_pages = 2, a script answering 429 once and
then serving two pages yields only the first page, while the same script
without the 429 yields both pages — the 429 retry does consume a
max_pages slot and reduces the number of successfully fetched pages. -/
theorem fetch_articles_429_consumes_slot_cex :
    fetch_articles server429 2 = ["a1"] ∧
    fetch_articles serverOk 2 = ["a1", "a2"] ∧
    (fetch_articles server429 2).length < (fetch_articles serverOk 2).length :=
  ⟨rfl, rfl, by decide⟩

/-- C1 (amended): on HTTP 429 the adapter sleeps and goes to the next
iteration of the for-loop with the page token unchanged, so the retried
request targets the same page, but the retry costs exactly one of the
max_pages loop iterations. -/
theorem fetch_articles_429_retry_same_token (server : Nat → NDResp)
    (fuel k : Nat) (tok : Option String) (acc : List String)
    (h : server k = NDResp.rateLimited) :
    fetchGo server (fuel + 1) k tok acc =
      fetchGo server fuel (k + 1) tok acc := by
  simp [fetchGo, h]

/-- C1 witness: the 429 answered to request 0 makes the loop reissue the
very same (token-free) first-page request as request 1 with one unit of the
page budget spent. -/
theorem fetch_articles_429_retry_same_token_witness :
    fetchGo server429 2 0 none [] = fetchGo server429 1 1 none [] :=
  fetch_articles_429_retry_same_token server429 1 0 none [] rfl

/-! ### Normalizer schema (claim C2) -/

/-- C2 counterexample: translation_info and full_text are canonical Article
Row columns, yet the table produced by run_gdeltdoc after renaming and
placeholder insertion on a raw GDELT article table does not contain them —
the placeholder loop only adds themes, locations, persons, organizations and
tone. -/
theorem gdelt_normalizer_missing_columns_cex :
    "translation_info" ∈ specCanonicalCols ∧
    "full_text" ∈ specCanonicalCols ∧
    (tableCols (gdeltRenamePlaceholders gdeltRawEx)).contains
      "translation_info" = false ∧
    (tableCols (gdeltRenamePlaceholders gdeltRawEx)).contains
      "full_text" = false := by
  decide

/-- C2 (amended): the NewsData normalizer emits every canonical column, with
empty-string fill for the source-unsupported metadata fields and a fixed
translation_info; the GDELT normalizer emits every canonical column except
translation_info and full_text, and fills its five inserted placeholder
columns with null. -/
theorem normalizer_schema_amended :
    (specCanonicalCols.all (fun c => ndCols.contains c)) = true ∧
    ((specCanonicalCols.filter
        (fun c => !(c == "translation_info" || c == "full_text"))).all
      (fun c => (tableCols (gdeltRenamePlaceholders gdeltRawEx)).contains c))
      = true ∧
    (gdeltPlaceholders.all (fun c =>
      lookupCol (gdeltRenamePlaceholders gdeltRawEx) c ==
        some (List.replicate 1 none))) = true ∧
    (∀ a : NDRaw, (normalizeRow a).themes = "" ∧
      (normalizeRow a).locations = "" ∧ (normalizeRow a).persons = "" ∧
      (normalizeRow a).organizations = "" ∧ (normalizeRow a).tone = "" ∧
      (normalizeRow a).translation_info = "srclc:ita") :=
  ⟨by decide, by decide, by decide,
   fun _ => ⟨rfl, rfl, rfl, rfl, rfl, rfl⟩⟩

/-! ### NewsData full_text at normalization time (claim C9) -/

/-- C9 counterexample: for whitespace-only content with a non-empty
description, the code stores null full_text (content is truthy, so
description is never consulted; the strip happens after the truthiness
test), while the claimed rule would store the stripped description. -/
theorem normalize_full_text_cex :
    (normalizeRow ndRawWsContent).full_text = none ∧
    specFullTextC9 ndRawWsContent = some "abc" ∧
    (normalizeRow ndRawWsContent).full_text ≠ specFullTextC9 ndRawWsContent :=
  ⟨by decide, by decide, by decide⟩

/-- C9 (amended): normalize sets full_text at normalization time from the
first truthy (non-missing and non-empty before stripping) of content and
description: that value is stripped and kept if the stripped result is
non-empty, otherwise full_text is null; description is consulted only when
content is missing or exactly the empty string, so whitespace-only content
yields null even when the description is non-empty. -/
theorem normalize_full_text_amended (a : NDRaw) :
    (∀ s, a.content = some s → s ≠ "" →
      (normalizeRow a).full_text =
        (if pyStrip s = "" then none else some (pyStrip s))) ∧
    ((a.content = none ∨ a.content = some "") → ∀ d, a.description = some d →
      d ≠ "" → (normalizeRow a).full_text =
        (if pyStrip d = "" then none else some (pyStrip d))) ∧
    ((a.content = none ∨ a.content = some "") →
      (a.description = none ∨ a.description = some "") →
      (normalizeRow a).full_text = none) := by
  refine ⟨?_, ?_, ?_⟩
  · intro s hs hne
    simp [normalizeRow, pyOr, hs, hne]
  · intro hc d hd hdne
    rcases hc with h | h <;> simp [normalizeRow, pyOr, h, hd, hdne]
  · intro hc hd
    rcases hc with h | h <;> rcases hd with h2 | h2 <;>
      simp [normalizeRow, pyOr, h, h2, show pyStrip "" = "" from rfl]

/-- C9 witness: content with surrounding whitespace is stripped and stored
as full text during normalization, with no enricher involved. -/
theorem normalize_full_text_amended_witness :
    (normalizeRow ndRawPadded).full_text = some "abc" :=
  ((normalize_full_text_amended ndRawPadded).1 " abc " rfl
    (by decide)).trans (by decide)

/-! ### Email subject (claim C8) -/

theorem startsWithChars_self_append (l r : List Char) :
    startsWithChars l (l ++ r) = true := by
  induction l with
  | nil => rfl
  | cons a as ih => simp [startsWithChars, ih]

theorem startsWithChars_self (l : List Char) : startsWithChars l l = true := by
  simpa using startsWithChars_self_append l []

theorem hasSub_of_startsWith (needle hay : List Char)
    (h : startsWithChars needle hay = true) : hasSub needle hay = true := by
  cases hay with
  | nil => simpa [hasSub] using h
  | cons c t => simp [hasSub, h]

theorem hasSub_cons (needle : List Char) (c : Char) (hay : List Char)
    (h : hasSub needle hay = true) : hasSub needle (c :: hay) = true := by
  simp [hasSub, h]

theorem hasSub_append_left (pre needle hay : List Char)
    (h : hasSub needle hay = true) : hasSub needle (pre ++ hay) = true := by
  induction pre with
  | nil => simpa using h
  | cons c cs ih => simpa [List.cons_append] using hasSub_cons needle c _ ih

/-- C8 counterexample: with a one-article table and the date range
2026-01-01 → 2026-02-02, the subject built by build_email_summary contains
the count and the from-date but not the to-date — the subject line format
only interpolates date_from. -/
theorem email_subject_cex :
    strContains (build_email_summary emailRowsEx "2026-01-01" "2026-02-02").1
      "2026-02-02" = false ∧
    strContains (build_email_summary emailRowsEx "2026-01-01" "2026-02-02").1
      "2026-01-01" = true ∧
    strContains (build_email_summary emailRowsEx "2026-01-01" "2026-02-02").1
      "1" = true :=
  ⟨by decide, by decide, by decide⟩

/-- C8 (amended): for every table and configured date range, the email
subject built by build_email_summary includes the computed article count and
the from-date of the range; the to-date appears only in the bodies, not in
the subject. -/
theorem email_subject_amended (df : List EmailRow) (date_from date_to : String) :
    strContains (build_email_summary df date_from date_to).1
      (toString df.length) = true ∧
    strContains (build_email_summary df date_from date_to).1 date_from = true := by
  have hsub : (build_email_summary df date_from date_to).1 =
      "[newspop] " ++ toString df.length ++ " articoli su fertilità — " ++
        date_from := rfl
  have hdata : ("[newspop] " ++ toString df.length ++
      " articoli su fertilità — " ++ date_from).toList =
      "[newspop] ".toList ++ ((toString df.length).toList ++
        (" articoli su fertilità — ".toList ++ date_from.toList)) := by
    simp [String.toList, List.append_assoc]
  constructor
  · rw [hsub]
    unfold strContains
    rw [hdata]
    exact hasSub_append_left _ _ _
      (hasSub_of_startsWith _ _ (startsWithChars_self_append _ _))
  · rw [hsub]
    unfold strContains
    rw [hdata]
    exact hasSub_append_left _ _ _ (hasSub_append_left _ _ _
      (hasSub_append_left _ _ _
        (hasSub_of_startsWith _ _ (startsWithChars_self _))))

/-! ### Digest loader requires a GDELT file (claim C10) -/

/-- C10: when no file in the data directory matches gdelt_*.parquet,
load_latest_parquet raises FileNotFoundError (modelled as the error branch
with the same message), regardless of which other files — including NewsData
parquets — are present. -/
theorem load_latest_requires_gdelt {α : Type} (key : α → String)
    (today dataDir : String) (files : List (String × List α))
    (h : ∀ f ∈ files, matchesGdelt f.1 = false) :
    load_latest_parquet key today dataDir files =
      Except.error ("No gdelt parquet files found in " ++ dataDir) := by
  have hfil : files.filter (fun f => matchesGdelt f.1) = [] := by
    simp only [List.filter_eq_nil_iff]
    intro a ha
    simp [h a ha]
  simp [load_latest_parquet, hfil, sortByNameDesc]

/-- C10 witness: a directory containing only a NewsData parquet from today
still makes the loader fail with FileNotFoundError. -/
theorem load_latest_requires_gdelt_witness :
    matchesNewsdataToday "20261012" "newsdata_20261012_120000.parquet" = true ∧
    load_latest_parquet Row.url "20261012" "data" digestFilesEx =
      Except.error ("No gdelt parquet files found in " ++ "data") :=
  ⟨by decide,
   load_latest_requires_gdelt Row.url "20261012" "data" digestFilesEx
     (by decide)⟩
